import Mathlib

/-!
Verification of the q language-server layer of kx-vscode.

The embedding follows the language-server source (`QLangServer` and its
helper functions `rangeFromToken`, `positionToToken`, `relative`,
`createCompletionItem`, `createTextEdit`, `createSymbol`,
`createDebugSymbol`).  The parser module it imports (`parse`,
`findIdentifiers` and the token predicates) is not among the sources at
hand, so those are modelled from the specification; each such
definition carries a `Modelled from the spec:` doc comment.
-/

namespace KxVscode

/-- Lexical categories of tokens, per the data model: identifier,
keyword, operator, literal, punctuation, lambda braces, grouping
delimiters. -/
inductive TokenType where
  | identifier
  | keyword
  | operatorTok
  | literal
  | lbrace
  | rbrace
  | lparen
  | rparen
  | lbracket
  | rbracket
  | semicolon
deriving DecidableEq, Repr

/-- Display name of a lexical category, used by `createDebugSymbol`
(`token.tokenType.name`). -/
def TokenType.name : TokenType → String
  | .identifier => "Identifier"
  | .keyword => "Keyword"
  | .operatorTok => "Operator"
  | .literal => "Literal"
  | .lbrace => "LBrace"
  | .rbrace => "RBrace"
  | .lparen => "LParen"
  | .rparen => "RParen"
  | .lbracket => "LBracket"
  | .rbracket => "RBracket"
  | .semicolon => "Semicolon"

/-- The lexical payload of a token: raw image, category, 1-based
inclusive positions (`none` models a missing/undefined field; `some 0`
is likewise falsy in the source language), resolution namespace, lexer
error code and multi-target assignment order.  Token-valued relations
(`scope`, `tangled`, `assignment`) are kept in `Token` below so the
data stays finite: a referenced token is represented by a copy of its
lexical payload, which identifies it by image and position. -/
structure TokenData where
  image : String
  tokenType : TokenType
  startLine : Option Nat
  startColumn : Option Nat
  endLine : Option Nat
  endColumn : Option Nat
  nameSpace : Option String
  error : Option Nat
  order : Option Nat
deriving DecidableEq, Repr

/-- A token of the parse: the lexical payload plus the annotator's
relations.  `scope` is the opening `{` token of the nearest enclosing
function literal; `tangled` the paired token of the same statement;
`assignment` the multi-target assignment group; `assignedValue` the
token of the right-hand-side value when this token is assigned
(Modelled from the spec: the parser records the assigned value for an
assigned token, and `assigned` returns it). -/
structure Token extends TokenData where
  scope : Option TokenData
  tangled : Option TokenData
  assignment : Option (List TokenData)
  assignedValue : Option TokenData
deriving DecidableEq, Repr

/-- 0-based editor position. -/
structure Position where
  line : Nat
  character : Nat
deriving DecidableEq, Repr

/-- 0-based editor range. -/
structure Range where
  start : Position
  «end» : Position
deriving DecidableEq, Repr

/-- An edit replacing `range` with `newText`. -/
structure TextEdit where
  range : Range
  newText : String
deriving DecidableEq, Repr

/-- `v || 1` of the source language on an optional numeric field:
a missing (`none`) or zero (falsy) value defaults to `1`. -/
def orOne : Option Nat → Nat
  | none => 1
  | some 0 => 1
  | some n => n

/-- Embeds `rangeFromToken`: 1-based inclusive token range to 0-based
editor range; every position field is defaulted through `|| 1` first,
and the end character is not decremented. -/
def rangeFromToken (token : Token) : Range :=
  { start := { line := orOne token.startLine - 1
               character := orOne token.startColumn - 1 }
    «end» := { line := orOne token.endLine - 1
               character := orOne token.endColumn } }

/-- The predicate tested by `positionToToken` for one token: the
cursor lies between the converted start and end lines, and—
independently of lines—between the start and end characters. -/
def matchesPosition (position : Position) (token : Token) : Bool :=
  let r := rangeFromToken token
  r.start.line ≤ position.line && position.line ≤ r.«end».line &&
    r.start.character ≤ position.character &&
    position.character ≤ r.«end».character

/-- Embeds `positionToToken`: the first token of the sequence whose
converted range contains the position, `none` when there is none. -/
def positionToToken (tokens : List Token) (position : Position) :
    Option Token :=
  tokens.find? (matchesPosition position)

/-- `String.startsWith` of the source language, defined by primitive
recursion over the character lists so that it can be reasoned about. -/
def startsWithChars : List Char → List Char → Bool
  | _, [] => true
  | [], _ :: _ => false
  | c :: cs, p :: ps => c = p && startsWithChars cs ps

/-- `s.startsWith p` on strings. -/
def jsStartsWith (s p : String) : Bool :=
  startsWithChars s.data p.data

/-- Modelled from the spec: `qualified(token)` of the parser module is
true iff the image carries a leading namespace-dot prefix. -/
def qualified (token : Token) : Bool :=
  jsStartsWith token.image "."

/-- Splitting a character list at every `'.'`, accumulator style;
mirrors `split(/\./g)` of the source language. -/
def splitDotAux : List Char → List Char → List String
  | [], acc => [String.mk acc.reverse]
  | c :: rest, acc =>
    if c = '.' then String.mk acc.reverse :: splitDotAux rest []
    else splitDotAux rest (c :: acc)

/-- `s.split(/\./g)`. -/
def splitDot (s : String) : List String :=
  splitDotAux s.data []

/-- `s.split(/\./g, 3)`: at most the first three components. -/
def splitDot3 (s : String) : List String :=
  (splitDot s).take 3

/-- Embeds `createTextEdit`: when the new name does not start with a
dot and the token is qualified with a non-empty name part after its
first namespace segment, the first namespace segment is re-attached in
front of the new name; otherwise the new name is used verbatim.  The
edit replaces the token's converted range. -/
def createTextEdit (token : Token) (newName : String) : TextEdit :=
  let name :=
    if jsStartsWith newName "." then newName
    else if qualified token then
      match splitDot3 token.image with
      | _dot :: ns :: image :: _ =>
        if image ≠ "" then "." ++ ns ++ "." ++ newName else newName
      | _ => newName
    else newName
  { range := rangeFromToken token, newText := name }

/-- Modelled from the spec: `assignable(token)` — a token that is
syntactically a valid assignment target (a name), excluding literals,
keywords and operators. -/
def assignable (token : Token) : Bool :=
  token.tokenType = TokenType.identifier

/-- Modelled from the spec: `assigned(token)` returns the token of the
value assigned to `token` (undefined when the token is not an
assignment target); its truthiness is the boolean `assigned`
predicate. -/
def assigned (token : Token) : Option TokenData :=
  token.assignedValue

/-- Modelled from the spec: `lambda` is true when the assigned value
token is a function literal, i.e. its text begins with `{`. -/
def lambda : Option TokenData → Bool
  | none => false
  | some value => jsStartsWith value.image "\x7b"

/-- Modelled from the spec: `inLambda(token)` returns the opening
token of the enclosing function literal; its truthiness is true iff
`scope` is set. -/
def inLambda (token : Token) : Option TokenData :=
  token.scope

/-- Modelled from the spec: `amended(token)` — whether the token is
the target of an amend (indexed in-place update) form rather than a
plain assignment; the annotator marks it through the `tangled`
pairing. -/
def amended (token : Token) : Bool :=
  token.tangled.isSome

/-- Modelled from the spec: `identifier(token)` — the display name of
a token: the image itself when already qualified, otherwise the image
prefixed with the namespace in effect. -/
def identifier (token : Token) : String :=
  if jsStartsWith token.image "." then token.image
  else
    match token.nameSpace with
    | some ns => if ns = "" then token.image else "." ++ ns ++ "." ++ token.image
    | none => token.image

/-- Modelled from the spec: `tokenId(token)` — a stable debug identity
built from the token's position and image. -/
def tokenId (token : TokenData) : String :=
  toString (orOne token.startLine) ++ ":" ++
    toString (orOne token.startColumn) ++ " " ++ token.image

/-- The four request kinds of `findIdentifiers`. -/
inductive FindKind where
  | Definition
  | Reference
  | Rename
  | Completion
deriving DecidableEq, Repr

/-- The binding an identifier token resolves to: a local binding of
one lambda (identified by its opening token) or a global binding of a
namespace. -/
inductive Binding where
  | loc (scope : TokenData) (image : String) (ns : Option String)
  | glob (ns : Option String) (name : String)
deriving DecidableEq, Repr

/-- The namespace and name parts of a qualified image `.ns.name...`,
as the source language's `split(/\./g, 3)` produces them: `none` when
the token is not qualified or the third component is empty. -/
def qualifiedParts (token : Token) : Option (String × String) :=
  if qualified token then
    match splitDot3 token.image with
    | _dot :: ns :: name :: _ => if name ≠ "" then some (ns, name) else none
    | _ => none
  else none

/-- Whether some assigned token of the sequence is a local binding of
the lambda opened by `s` for the image/namespace of `t`. -/
def hasLocalIn (tokens : List Token) (s : TokenData) (t : Token) : Bool :=
  tokens.any fun u =>
    (assigned u).isSome && u.scope = some s &&
      u.image = t.image && u.nameSpace = t.nameSpace

/-- Modelled from the spec: the binding a token resolves to.  A
qualified identifier resolves directly against the namespace written
in its image, ignoring scope.  Otherwise, when the token's `scope` is
set, the engine first looks for an assigned token of the same scope
with matching image/namespace; when no such local binding exists it
falls through directly to the global/namespace level, never searching
intermediate enclosing lambdas. -/
def resolve (tokens : List Token) (t : Token) : Binding :=
  match qualifiedParts t with
  | some (ns, name) => Binding.glob (some ns) name
  | none =>
    match t.scope with
    | some s =>
      if hasLocalIn tokens s t then Binding.loc s t.image t.nameSpace
      else Binding.glob t.nameSpace t.image
    | none => Binding.glob t.nameSpace t.image

/-- Modelled from the spec: `findIdentifiers(kind, tokens, source)`.
An undefined or non-assignable source yields the empty collection for
every kind.  Completion lists the bindings visible from the source:
global assignments plus local assignments of the enclosing lambda.
Definition lists the assigned, assignable tokens of the source's
binding; Reference and Rename list every token of that binding, and
are empty when the binding has no assigned token at all (an
unresolved identifier). -/
def findIdentifiers (kind : FindKind) (tokens : List Token)
    (source : Option Token) : List Token :=
  match source with
  | none => []
  | some src =>
    if ¬ assignable src then []
    else
      match kind with
      | FindKind.Completion =>
        tokens.filter fun t =>
          (assigned t).isSome && assignable t &&
            (t.scope = none || t.scope = src.scope)
      | FindKind.Definition =>
        tokens.filter fun t =>
          (assigned t).isSome && assignable t &&
            resolve tokens t = resolve tokens src
      | FindKind.Reference | FindKind.Rename =>
        if tokens.any fun t =>
            (assigned t).isSome && assignable t &&
              resolve tokens t = resolve tokens src then
          tokens.filter fun t =>
            assignable t && resolve tokens t = resolve tokens src
        else []

/-- A lexed token before annotation: image, category and its 1-based
inclusive range. -/
structure RawTok where
  image : String
  tokenType : TokenType
  startLine : Nat
  startColumn : Nat
  endLine : Nat
  endColumn : Nat
deriving DecidableEq, Repr

/-- Longest matching run of characters, returned with the rest. -/
def takeRun (p : Char → Bool) : List Char → List Char × List Char
  | [] => ([], [])
  | c :: cs =>
    if p c then
      let r := takeRun p cs
      (c :: r.1, r.2)
    else ([], c :: cs)

theorem takeRun_length (p : Char → Bool) (cs : List Char) :
    (takeRun p cs).2.length ≤ cs.length := by
  induction cs with
  | nil => simp [takeRun]
  | cons c cs ih =>
    by_cases h : p c = true
    · simpa [takeRun, h] using Nat.le_succ_of_le ih
    · simp [takeRun, h]

/-- Identifier characters: letters, digits, underscore and the
namespace dot. -/
def isIdentChar (c : Char) : Bool :=
  c.isAlpha || c.isDigit || c = '_' || c = '.'

/-- First character of an identifier. -/
def isIdentHead (c : Char) : Bool :=
  c.isAlpha || c = '_' || c = '.'

/-- Reserved words recognised by the lexer model. -/
def keywords : List String :=
  ["select", "exec", "update", "delete", "from", "where", "by",
   "if", "do", "while", "exit"]

/-- Modelled from the spec: the lexer — one left-to-right scan of the
text, tracking 1-based line/column over newlines, emitting
identifiers (with optional dotted qualification), numeric literals,
lambda and grouping delimiters and single-character operators.  The
fuel argument bounds the scan by the number of characters, which the
loop consumes at least one of per step. -/
def tokenizeAux : Nat → List Char → Nat → Nat → List RawTok
  | 0, _, _, _ => []
  | _, [], _, _ => []
  | fuel + 1, c :: cs, line, col =>
    if c = '\n' then tokenizeAux fuel cs (line + 1) 1
    else if c = ' ' || c = '\t' || c = '\r' then
      tokenizeAux fuel cs line (col + 1)
    else if isIdentHead c then
      let r := takeRun isIdentChar cs
      let image := String.mk (c :: r.1)
      let tt :=
        if keywords.contains image then TokenType.keyword
        else TokenType.identifier
      { image := image, tokenType := tt, startLine := line,
        startColumn := col, endLine := line,
        endColumn := col + r.1.length } ::
        tokenizeAux fuel r.2 line (col + r.1.length + 1)
    else if c.isDigit then
      let r := takeRun Char.isDigit cs
      { image := String.mk (c :: r.1), tokenType := TokenType.literal,
        startLine := line, startColumn := col, endLine := line,
        endColumn := col + r.1.length } ::
        tokenizeAux fuel r.2 line (col + r.1.length + 1)
    else
      let tt :=
        if c = '{' then TokenType.lbrace
        else if c = '}' then TokenType.rbrace
        else if c = '(' then TokenType.lparen
        else if c = ')' then TokenType.rparen
        else if c = '[' then TokenType.lbracket
        else if c = ']' then TokenType.rbracket
        else if c = ';' then TokenType.semicolon
        else TokenType.operatorTok
      { image := String.mk [c], tokenType := tt, startLine := line,
        startColumn := col, endLine := line, endColumn := col } ::
        tokenizeAux fuel cs line (col + 1)

/-- The namespace encoded in a qualified image, first segment of the
dotted prefix. -/
def nsOfImage (image : String) : Option String :=
  if jsStartsWith image "." then
    match splitDot3 image with
    | _dot :: ns :: _ :: _ => some ns
    | _ => none
  else none

/-- The annotated payload of a lexed token. -/
def toData (r : RawTok) : TokenData :=
  { image := r.image, tokenType := r.tokenType,
    startLine := some r.startLine, startColumn := some r.startColumn,
    endLine := some r.endLine, endColumn := some r.endColumn,
    nameSpace := nsOfImage r.image, error := none, order := none }

/-- Modelled from the spec: the annotator — a single pass with a
brace-depth stack (the opening `{` on top is every token's `scope`)
and a bracket-depth counter (an assignment-looking `:` inside `(`/`[`
brackets is not an assignment).  An identifier immediately followed
by an unbracketed `:` is marked assigned, its value being the token
after the `:`. -/
def annotateAux : List RawTok → List TokenData → Nat → List Token
  | [], _, _ => []
  | r :: rest, stack, bdepth =>
    let d := toData r
    let scope := stack.head?
    if r.tokenType = TokenType.lbrace then
      { toTokenData := d, scope := scope, tangled := none,
        assignment := none, assignedValue := none } ::
        annotateAux rest (d :: stack) bdepth
    else if r.tokenType = TokenType.rbrace then
      { toTokenData := d, scope := scope, tangled := none,
        assignment := none, assignedValue := none } ::
        annotateAux rest stack.tail bdepth
    else
      let bdepth' :=
        if r.tokenType = TokenType.lparen ∨
            r.tokenType = TokenType.lbracket then bdepth + 1
        else if r.tokenType = TokenType.rparen ∨
            r.tokenType = TokenType.rbracket then bdepth - 1
        else bdepth
      let value : Option TokenData :=
        if r.tokenType = TokenType.identifier ∧ bdepth = 0 then
          match rest with
          | colon :: v :: _ =>
            if colon.image = ":" then some (toData v) else none
          | _ => none
        else none
      { toTokenData := d, scope := scope, tangled := none,
        assignment := none, assignedValue := value } ::
        annotateAux rest stack bdepth'

/-- Modelled from the spec: `parse(text)` — the full lex + annotate
pipeline; a total function of the text. -/
def parse (text : String) : List Token :=
  annotateAux (tokenizeAux text.data.length text.data 1 1) [] 0

/-- Embeds `QLangServer.parse`: look the document up by its URI; an
unknown document yields the empty token array, a known one the parse
of its text. -/
def serverParse (documents : String → Option String) (uri : String) :
    List Token :=
  match documents uri with
  | none => []
  | some text => parse text

/-- A workspace edit: text edits grouped under document URIs. -/
structure WorkspaceEdit where
  changes : List (String × List TextEdit)
deriving DecidableEq, Repr

/-- Embeds `QLangServer.onRenameRequest`: parse the document, find the
token under the cursor, map every rename target to a text edit;
`none` when there are no edits, otherwise one workspace edit holding
them all under the document's URI. -/
def onRenameRequest (documents : String → Option String) (uri : String)
    (position : Position) (newName : String) : Option WorkspaceEdit :=
  let tokens := serverParse documents uri
  let source := positionToToken tokens position
  let edits := (findIdentifiers FindKind.Rename tokens source).map
    fun token => createTextEdit token newName
  if edits.length = 0 then none
  else some { changes := [(uri, edits)] }

/-- Completion item kinds used by the server. -/
inductive CompletionItemKind where
  | Function
  | Variable
deriving DecidableEq, Repr

/-- The label details of a completion item. -/
structure LabelDetails where
  detail : String
deriving DecidableEq, Repr

/-- A completion item as the server builds it. -/
structure CompletionItem where
  label : String
  labelDetails : LabelDetails
  insertText : String
  kind : CompletionItemKind
deriving DecidableEq, Repr

/-- Embeds `relative`: the text of a candidate relative to a
reference namespace — the bare name when the candidate is qualified
into exactly that namespace, the raw image when the candidate's
namespace field equals the reference, the display name otherwise. -/
def relative (token : Token) (ns : Option String) : String :=
  let qual : Option String :=
    if qualified token then
      match splitDot3 token.image with
      | _dot :: target :: image :: _ =>
        if image ≠ "" && ns = some target then some image else none
      | _ => none
    else none
  match qual with
  | some s => s
  | none =>
    if token.nameSpace = ns then token.image else identifier token

/-- Embeds `createCompletionItem`: label is the raw image, the detail
the display name, the inserted text is relative to the cursor token's
namespace, and the kind is Function exactly when the assigned value
is a function literal. -/
def createCompletionItem (token : Token) (source : Option Token) :
    CompletionItem :=
  { label := token.image
    labelDetails := { detail := " " ++ identifier token }
    insertText := relative token (source.bind fun s => s.nameSpace)
    kind :=
      if lambda (assigned token) then CompletionItemKind.Function
      else CompletionItemKind.Variable }

/-- Symbol kinds used by the server. -/
inductive SymbolKind where
  | Object
  | Variable
deriving DecidableEq, Repr

/-- A document symbol: name, optional detail, kind, two ranges and
children. -/
inductive DocumentSymbol where
  | mk (name : String) (detail : Option String) (kind : SymbolKind)
      (range : Range) (selectionRange : Range)
      (children : List DocumentSymbol) : DocumentSymbol

/-- Embeds `createSymbol` with explicit recursion fuel: the source
recursion descends through ever deeper lambda nestings of the token
array, which the fuel bounds by the array length; the claims proved
here only inspect the top-level symbol list, which the fuel does not
affect.  The symbol's name is the trimmed display name, the detail
"Amend" for amended tokens, the kind Object for function values, and
the children are the assigned assignable tokens whose enclosing
lambda is the token's assigned value. -/
def createSymbolFuel : Nat → Token → List Token → DocumentSymbol
  | 0, token, _ =>
    let range := rangeFromToken token
    DocumentSymbol.mk (identifier token).trim
      (if amended token then some "Amend" else none)
      (if lambda (assigned token) then SymbolKind.Object
       else SymbolKind.Variable)
      range range []
  | fuel + 1, token, tokens =>
    let range := rangeFromToken token
    DocumentSymbol.mk (identifier token).trim
      (if amended token then some "Amend" else none)
      (if lambda (assigned token) then SymbolKind.Object
       else SymbolKind.Variable)
      range range
      ((tokens.filter fun child =>
          (assigned child).isSome && assignable child &&
            inLambda child = assigned token).map
        fun child => createSymbolFuel fuel child tokens)

/-- `createSymbol(token, tokens)` of the source, at the fuel bound. -/
def createSymbol (token : Token) (tokens : List Token) : DocumentSymbol :=
  createSymbolFuel tokens.length token tokens

/-- Embeds `createDebugSymbol`: name is the debug identity, the
detail concatenates category name, namespace, error, order, tangled,
scope and assignment group, each rendered only when its field is
set/truthy. -/
def createDebugSymbol (token : Token) : DocumentSymbol :=
  let range := rangeFromToken token
  let detail :=
    token.tokenType.name ++ " " ++
      (match token.nameSpace with
       | some ns => "(" ++ ns ++ ")"
       | none => "") ++ " " ++
      (match token.error with
       | some e => "E=" ++ toString e
       | none => "") ++ " " ++
      (match token.order with
       | some o => if o = 0 then "" else "O=" ++ toString o
       | none => "") ++ " " ++
      (match token.tangled with
       | some t => "T=" ++ tokenId t
       | none => "") ++ " " ++
      (match token.scope with
       | some s => "S=" ++ tokenId s
       | none => "") ++ " " ++
      (match token.assignment with
       | some group =>
         "A=" ++ String.intercalate " " (group.map tokenId)
       | none => "")
  DocumentSymbol.mk (tokenId token.toTokenData) (some detail)
    SymbolKind.Variable range range []

/-- The server settings. -/
structure Settings where
  debug : Bool
  linting : Bool
deriving DecidableEq, Repr

/-- Embeds `QLangServer.onDocumentSymbol`: in debug mode one debug
symbol per token of the parse; otherwise one symbol per assignable,
assigned, top-level (not in any lambda) token, in token order. -/
def onDocumentSymbol (settings : Settings)
    (documents : String → Option String) (uri : String) :
    List DocumentSymbol :=
  let tokens := serverParse documents uri
  if settings.debug then tokens.map createDebugSymbol
  else
    (tokens.filter fun token =>
        assignable token && (assigned token).isSome &&
          (inLambda token).isNone).map
      fun token => createSymbol token tokens

/-! Helper lemmas. -/

theorem splitDotAux_no_dot (cs : List Char) (acc : List Char)
    (h : ∀ c ∈ cs, c ≠ '.') :
    splitDotAux cs acc = [String.mk (acc.reverse ++ cs)] := by
  induction cs generalizing acc with
  | nil => simp [splitDotAux]
  | cons c cs ih =>
    have hc : ¬ c = '.' := h c (by simp)
    rw [splitDotAux, if_neg hc, ih (c :: acc) (fun d hd => h d (by simp [hd]))]
    simp

theorem splitDotAux_dot_split (cs1 cs2 : List Char) (acc : List Char)
    (h : ∀ c ∈ cs1, c ≠ '.') :
    splitDotAux (cs1 ++ '.' :: cs2) acc =
      String.mk (acc.reverse ++ cs1) :: splitDotAux cs2 [] := by
  induction cs1 generalizing acc with
  | nil => simp [splitDotAux]
  | cons c cs ih =>
    have hc : ¬ c = '.' := h c (by simp)
    rw [List.cons_append, splitDotAux, if_neg hc,
      ih (c :: acc) (fun d hd => h d (by simp [hd]))]
    simp

theorem splitDot_qualified (ns nm : String)
    (hns : ∀ c ∈ ns.data, c ≠ '.') (hnm : ∀ c ∈ nm.data, c ≠ '.') :
    splitDot ("." ++ ns ++ "." ++ nm) = ["", ns, nm] := by
  have hdata : ("." ++ ns ++ "." ++ nm).data =
      '.' :: (ns.data ++ '.' :: nm.data) := by
    simp [String.data_append]
  rw [splitDot, hdata, splitDotAux, if_pos rfl,
    splitDotAux_dot_split ns.data nm.data [] hns,
    splitDotAux_no_dot nm.data [] hnm]
  simp

theorem jsStartsWith_dot (s : String) (rest : List Char)
    (h : s.data = '.' :: rest) : jsStartsWith s "." = true := by
  rw [jsStartsWith, h]
  show startsWithChars ('.' :: rest) ['.'] = true
  simp [startsWithChars]

theorem find_first_iff {α : Type} (p : α → Bool) (l : List α) (a : α) :
    l.find? p = some a ↔
      ∃ l₁ l₂, l = l₁ ++ a :: l₂ ∧ p a = true ∧ ∀ u ∈ l₁, p u = false := by
  induction l with
  | nil => simp
  | cons x xs ih =>
    by_cases h : p x = true
    · rw [List.find?_cons_of_pos _ h]
      constructor
      · intro hx
        cases hx
        exact ⟨[], xs, rfl, h, by simp⟩
      · rintro ⟨l₁, l₂, heq, hpa, hall⟩
        cases l₁ with
        | nil =>
          rw [List.nil_append] at heq
          cases heq
          rfl
        | cons y ys =>
          rw [List.cons_append] at heq
          cases heq
          exact absurd h (by simp [hall x (by simp)])
    · rw [List.find?_cons_of_neg _ h, ih]
      constructor
      · rintro ⟨l₁, l₂, heq, hpa, hall⟩
        refine ⟨x :: l₁, l₂, by rw [heq, List.cons_append], hpa, ?_⟩
        intro u hu
        rcases List.mem_cons.mp hu with hu | hu
        · cases hu
          simpa using h
        · exact hall u hu
      · rintro ⟨l₁, l₂, heq, hpa, hall⟩
        cases l₁ with
        | nil =>
          rw [List.nil_append] at heq
          cases heq
          exact absurd hpa h
        | cons y ys =>
          rw [List.cons_append] at heq
          cases heq
          exact ⟨ys, l₂, rfl, hpa, fun u hu => hall u (by simp [hu])⟩

/-! Claim theorems. -/

/-- The 0-based range conversion as the specification words it: every
missing (falsy) position field defaults to 1, then
start = (startLine - 1, startColumn - 1) and end = (endLine - 1,
endColumn). -/
def specDefaultPos : Option Nat → Nat
  | none => 1
  | some n => if n = 0 then 1 else n

/-- The range the specification's position-mapping sentence
describes. -/
def specRange (t : Token) : Range :=
  { start := { line := specDefaultPos t.startLine - 1
               character := specDefaultPos t.startColumn - 1 }
    «end» := { line := specDefaultPos t.endLine - 1
               character := specDefaultPos t.endColumn } }

theorem orOne_eq_specDefaultPos (v : Option Nat) :
    orOne v = specDefaultPos v := by
  rcases v with _ | n
  · rfl
  · rcases n with _ | n <;> simp [orOne, specDefaultPos]

/-- C3: for every token, the range handed to the editor is the
0-based conversion of the token's 1-based inclusive range, with every
missing (falsy) position field first defaulted to 1; the end
character is not decremented. -/
theorem range_zero_based_conversion (t : Token) :
    rangeFromToken t = specRange t := by
  rw [rangeFromToken, specRange, orOne_eq_specDefaultPos,
    orOne_eq_specDefaultPos, orOne_eq_specDefaultPos,
    orOne_eq_specDefaultPos]

/-- C1: when the replacement name does not start with a dot and the
token's image has the qualified form `.ns.name` with a non-empty name
part, the rename edit replaces the token's range with `.ns.` followed
by the new name, preserving the namespace prefix; when the new name
starts with a dot it replaces the range with the new name verbatim. -/
theorem rename_preserves_namespace (t : Token) (n ns nm : String) :
    (jsStartsWith n "." = false → (∀ c ∈ ns.data, c ≠ '.') →
      (∀ c ∈ nm.data, c ≠ '.') → nm ≠ "" →
      t.image = "." ++ ns ++ "." ++ nm →
      createTextEdit t n =
        { range := rangeFromToken t, newText := "." ++ ns ++ "." ++ n })
  ∧ (jsStartsWith n "." = true →
      createTextEdit t n = { range := rangeFromToken t, newText := n }) := by
  constructor
  · intro hn hns hnm hne him
    have hdata : t.image.data = '.' :: (ns.data ++ '.' :: nm.data) := by
      rw [him]
      simp [String.data_append]
    have hq : qualified t = true := jsStartsWith_dot _ _ hdata
    have hsplit : splitDot3 t.image = ["", ns, nm] := by
      rw [splitDot3, him, splitDot_qualified ns nm hns hnm]
      rfl
    rw [createTextEdit]
    simp only [hn, Bool.false_eq_true, if_false, hq, if_true, hsplit]
    simp [hne]
  · intro hn
    rw [createTextEdit]
    simp [hn]

/-- Sample qualified token used to witness the rename and position
theorems. -/
def sampleQualTok : Token :=
  { image := ".ns.f", tokenType := TokenType.identifier,
    startLine := some 1, startColumn := some 1, endLine := some 1,
    endColumn := some 5, nameSpace := some "ns", error := none,
    order := none, scope := none, tangled := none, assignment := none,
    assignedValue := none }

theorem rename_preserves_namespace_witness :
    createTextEdit sampleQualTok "g" =
      { range := rangeFromToken sampleQualTok, newText := ".ns.g" } ∧
    createTextEdit sampleQualTok ".other.g" =
      { range := rangeFromToken sampleQualTok, newText := ".other.g" } :=
  ⟨(rename_preserves_namespace sampleQualTok "g" "ns" "f").1 (by decide)
      (by decide) (by decide) (by decide) (by decide),
   (rename_preserves_namespace sampleQualTok ".other.g" "ns" "f").2
      (by decide)⟩

/-- C9: `positionToToken` returns the first token in sequence order
whose converted 0-based range satisfies the line bounds and,
independently of lines, the character bounds; it returns `none` when
no token satisfies this, in particular on the empty token array. -/
theorem position_to_token_first_match (tokens : List Token) (pos : Position) :
    (∀ t, positionToToken tokens pos = some t ↔
      ∃ l₁ l₂, tokens = l₁ ++ t :: l₂ ∧ matchesPosition pos t = true ∧
        ∀ u ∈ l₁, matchesPosition pos u = false)
  ∧ (positionToToken tokens pos = none ↔
      ∀ u ∈ tokens, matchesPosition pos u = false)
  ∧ positionToToken [] pos = none
  ∧ ∀ t, matchesPosition pos t = true ↔
      ((rangeFromToken t).start.line ≤ pos.line ∧
        pos.line ≤ (rangeFromToken t).«end».line ∧
        (rangeFromToken t).start.character ≤ pos.character ∧
        pos.character ≤ (rangeFromToken t).«end».character) := by
  refine ⟨fun t => find_first_iff _ tokens t, ?_, rfl, fun t => ?_⟩
  · rw [positionToToken, List.find?_eq_none]
    constructor
    · intro h u hu
      simpa using h u hu
    · intro h u hu
      simp [h u hu]
  · rw [matchesPosition]
    simp only [Bool.and_eq_true, decide_eq_true_eq]
    constructor
    · rintro ⟨⟨⟨h1, h2⟩, h3⟩, h4⟩
      exact ⟨h1, h2, h3, h4⟩
    · rintro ⟨h1, h2, h3, h4⟩
      exact ⟨⟨⟨h1, h2⟩, h3⟩, h4⟩

theorem position_to_token_first_match_witness :
    positionToToken [sampleQualTok] { line := 0, character := 0 } =
      some sampleQualTok :=
  ((position_to_token_first_match [sampleQualTok]
      { line := 0, character := 0 }).1 sampleQualTok).mpr
    ⟨[], [], rfl, by decide, by simp⟩

/-- C2: for a source token whose scope is set and that is not
qualified, the resolver first searches for an assigned token with the
same scope and matching image/namespace; when such a local binding
exists the token resolves to that lambda's local binding, and when
none exists it resolves directly at the global/namespace level — the
fallthrough target never depends on any intermediate enclosing
lambda.  `findIdentifiers` applies exactly this resolution to every
candidate. -/
theorem dynamic_scope_two_step (tokens : List Token) (src : Token)
    (s : TokenData) (hscope : src.scope = some s)
    (hq : qualifiedParts src = none) :
    (hasLocalIn tokens s src = true →
      resolve tokens src = Binding.loc s src.image src.nameSpace)
  ∧ (hasLocalIn tokens s src = false →
      resolve tokens src = Binding.glob src.nameSpace src.image)
  ∧ (hasLocalIn tokens s src = true ↔
      ∃ u ∈ tokens, (assigned u).isSome = true ∧ u.scope = some s ∧
        u.image = src.image ∧ u.nameSpace = src.nameSpace)
  ∧ (assignable src = true →
      findIdentifiers FindKind.Definition tokens (some src) =
        tokens.filter fun t =>
          (assigned t).isSome && assignable t &&
            decide (resolve tokens t = resolve tokens src)) := by
  refine ⟨?_, ?_, ?_, ?_⟩
  · intro h
    rw [resolve, hq, hscope]
    simp [h]
  · intro h
    rw [resolve, hq, hscope]
    simp [h]
  · rw [hasLocalIn, List.any_eq_true]
    constructor
    · rintro ⟨u, hu, hcond⟩
      simp only [Bool.and_eq_true, decide_eq_true_eq] at hcond
      exact ⟨u, hu, hcond.1.1.1, hcond.1.1.2, hcond.1.2, hcond.2⟩
    · rintro ⟨u, hu, h1, h2, h3, h4⟩
      exact ⟨u, hu, by simp [h1, h2, h3, h4]⟩
  · intro h
    rw [findIdentifiers.eq_def]
    simp [h]

/-- Opening-brace token of a lambda, used by the resolution
witness. -/
def sampleLamTok : TokenData :=
  { image := "\x7b", tokenType := TokenType.lbrace, startLine := some 1,
    startColumn := some 3, endLine := some 1, endColumn := some 3,
    nameSpace := none, error := none, order := none }

/-- An unqualified identifier token inside the sample lambda. -/
def sampleLocalUse : Token :=
  { image := "x", tokenType := TokenType.identifier,
    startLine := some 1, startColumn := some 4, endLine := some 1,
    endColumn := some 4, nameSpace := none, error := none,
    order := none, scope := some sampleLamTok, tangled := none,
    assignment := none, assignedValue := none }

theorem dynamic_scope_two_step_witness :
    resolve [sampleLocalUse] sampleLocalUse = Binding.glob none "x" :=
  (dynamic_scope_two_step [sampleLocalUse] sampleLocalUse sampleLamTok
      rfl (by decide)).2.1 (by decide)

/-- C5: an undefined source, or a source that is not assignable (a
keyword, literal or operator), yields the empty collection for every
request kind. -/
theorem non_assignable_empty (kind : FindKind) (tokens : List Token)
    (src : Token) :
    findIdentifiers kind tokens none = []
  ∧ (assignable src = false → findIdentifiers kind tokens (some src) = [])
  ∧ (src.tokenType = TokenType.keyword ∨
      src.tokenType = TokenType.literal ∨
      src.tokenType = TokenType.operatorTok → assignable src = false) := by
  refine ⟨rfl, fun h => ?_, fun h => ?_⟩
  · rw [findIdentifiers.eq_def]
    simp [h]
  · rcases h with h | h | h <;> simp [assignable, h]

/-- A keyword token used to witness the empty-result edge cases. -/
def sampleKeywordTok : Token :=
  { image := "select", tokenType := TokenType.keyword,
    startLine := some 1, startColumn := some 1, endLine := some 1,
    endColumn := some 6, nameSpace := none, error := none,
    order := none, scope := none, tangled := none, assignment := none,
    assignedValue := none }

theorem non_assignable_empty_witness :
    findIdentifiers FindKind.Definition [sampleKeywordTok] none = [] ∧
    findIdentifiers FindKind.Definition [sampleKeywordTok]
      (some sampleKeywordTok) = [] :=
  ⟨(non_assignable_empty FindKind.Definition [sampleKeywordTok]
      sampleKeywordTok).1,
   (non_assignable_empty FindKind.Definition [sampleKeywordTok]
      sampleKeywordTok).2.1 (by decide)⟩

/-- C6: `parse` is deterministic — identical text yields identical
token sequences and annotations — and `findIdentifiers` at kind
Reference yields the same ordered result on the same arguments. -/
theorem parse_find_deterministic (text1 text2 : String)
    (tokens1 tokens2 : List Token) (source1 source2 : Option Token) :
    (text1 = text2 → parse text1 = parse text2)
  ∧ (tokens1 = tokens2 → source1 = source2 →
      findIdentifiers FindKind.Reference tokens1 source1 =
        findIdentifiers FindKind.Reference tokens2 source2) := by
  refine ⟨fun h => ?_, fun h1 h2 => ?_⟩
  · rw [h]
  · rw [h1, h2]

theorem parse_find_deterministic_witness :
    parse "a:1" = parse "a:1" :=
  (parse_find_deterministic "a:1" "a:1" [] [] none none).1 rfl

/-- C4: a resolution miss is an empty collection, never a failure: an
unknown document parses to the empty token array, the rename handler
answers `none` exactly when `findIdentifiers` returns no tokens, and
otherwise it answers one workspace edit with exactly one text edit
per returned token under the document's URI. -/
theorem rename_miss_empty (documents : String → Option String)
    (uri : String) (position : Position) (newName : String) :
    (documents uri = none → serverParse documents uri = [])
  ∧ (onRenameRequest documents uri position newName = none ↔
      findIdentifiers FindKind.Rename (serverParse documents uri)
        (positionToToken (serverParse documents uri) position) = [])
  ∧ (findIdentifiers FindKind.Rename (serverParse documents uri)
        (positionToToken (serverParse documents uri) position) ≠ [] →
      onRenameRequest documents uri position newName =
        some { changes :=
          [(uri, (findIdentifiers FindKind.Rename (serverParse documents uri)
            (positionToToken (serverParse documents uri) position)).map
              fun token => createTextEdit token newName)] }) := by
  refine ⟨fun h => ?_, ?_, fun h => ?_⟩
  · rw [serverParse, h]
  · rw [onRenameRequest]
    rcases hfound : findIdentifiers FindKind.Rename
        (serverParse documents uri)
        (positionToToken (serverParse documents uri) position) with
      _ | ⟨t, ts⟩ <;> simp [hfound]
  · rw [onRenameRequest]
    rcases hfound : findIdentifiers FindKind.Rename
        (serverParse documents uri)
        (positionToToken (serverParse documents uri) position) with
      _ | ⟨t, ts⟩
    · exact absurd hfound h
    · simp [hfound]

/-- Document store holding no document, for the miss witnesses. -/
def docsEmpty : String → Option String := fun _ => none

/-- Document store holding one document `doc` with text `a:1`. -/
def docsAssign : String → Option String :=
  fun uri => if uri = "doc" then some "a:1" else none

theorem rename_miss_empty_witness :
    serverParse docsEmpty "doc" = [] ∧
    onRenameRequest docsAssign "doc" { line := 0, character := 0 } "b" =
      some { changes :=
        [("doc", (findIdentifiers FindKind.Rename (serverParse docsAssign "doc")
          (positionToToken (serverParse docsAssign "doc")
            { line := 0, character := 0 })).map
            fun token => createTextEdit token "b")] } :=
  ⟨(rename_miss_empty docsEmpty "doc" { line := 0, character := 0 } "b").1
      rfl,
   (rename_miss_empty docsAssign "doc" { line := 0, character := 0 } "b").2.2
      (by decide)⟩

/-- C7: the kind of a produced completion item is Function exactly
when the value assigned to the token is a function literal, and
Variable otherwise. -/
theorem completion_kind_function_iff (t : Token) (s : Option Token) :
    ((createCompletionItem t s).kind = CompletionItemKind.Function ↔
      lambda (assigned t) = true)
  ∧ ((createCompletionItem t s).kind = CompletionItemKind.Variable ↔
      lambda (assigned t) = false) := by
  rw [createCompletionItem]
  by_cases h : lambda (assigned t) = true <;> simp [h]

/-- C8: the inserted completion text is computed relative to the
cursor token's namespace: the bare name for a candidate qualified
into exactly that namespace, the raw image when the candidate's
namespace field equals it, the display name otherwise. -/
theorem completion_insert_relative (t : Token) (src : Token)
    (target nm : String) :
    ((∀ c ∈ target.data, c ≠ '.') → (∀ c ∈ nm.data, c ≠ '.') → nm ≠ "" →
      t.image = "." ++ target ++ "." ++ nm →
      ((src.nameSpace = some target →
          (createCompletionItem t (some src)).insertText = nm)
       ∧ (src.nameSpace ≠ some target →
          (t.nameSpace = src.nameSpace →
            (createCompletionItem t (some src)).insertText = t.image)
        ∧ (t.nameSpace ≠ src.nameSpace →
            (createCompletionItem t (some src)).insertText = identifier t))))
  ∧ (qualified t = false →
      ((t.nameSpace = src.nameSpace →
          (createCompletionItem t (some src)).insertText = t.image)
       ∧ (t.nameSpace ≠ src.nameSpace →
          (createCompletionItem t (some src)).insertText = identifier t))) := by
  constructor
  · intro htarget hnm hne him
    have hdata : t.image.data = '.' :: (target.data ++ '.' :: nm.data) := by
      rw [him]
      simp [String.data_append]
    have hq : qualified t = true := jsStartsWith_dot _ _ hdata
    have hsplit : splitDot3 t.image = ["", target, nm] := by
      rw [splitDot3, him, splitDot_qualified target nm htarget hnm]
      rfl
    constructor
    · intro hns
      rw [createCompletionItem]
      simp only [relative, hq, if_true, hsplit, Option.bind_eq_bind,
        Option.some_bind, hns, hne]
      simp [hne]
    · intro hns
      rw [createCompletionItem]
      simp only [relative, hq, if_true, hsplit, Option.bind_eq_bind,
        Option.some_bind]
      have hcond : ¬ (nm ≠ "" ∧ src.nameSpace = some target) := by
        intro hc
        exact hns hc.2
      constructor
      · intro heq
        simp [hcond, heq]
      · intro hneq
        simp [hcond, hneq]
  · intro hq
    constructor
    · intro heq
      rw [createCompletionItem]
      simp [relative, hq, heq]
    · intro hneq
      rw [createCompletionItem]
      simp [relative, hq, hneq]

theorem completion_insert_relative_witness :
    ((createCompletionItem sampleQualTok (some sampleQualTok)).insertText
      = "f") ∧
    ((createCompletionItem sampleKeywordTok (some sampleQualTok)).insertText
      = identifier sampleKeywordTok) :=
  ⟨((completion_insert_relative sampleQualTok sampleQualTok "ns" "f").1
      (by decide) (by decide) (by decide) (by decide)).1 (by decide),
   ((completion_insert_relative sampleKeywordTok sampleQualTok "ns" "f").2
      (by decide)).2 (by decide)⟩

/-- C10: with debug mode off, the document-symbol handler produces
top-level symbols exactly for the tokens that are assignable,
assigned and not inside any lambda, in token-sequence order; with
debug mode on it produces exactly one debug symbol per token of the
parse, in the same order. -/
theorem document_symbol_modes (settings : Settings)
    (documents : String → Option String) (uri : String) :
    (settings.debug = true →
      onDocumentSymbol settings documents uri =
        (serverParse documents uri).map createDebugSymbol)
  ∧ (settings.debug = false →
      onDocumentSymbol settings documents uri =
        ((serverParse documents uri).filter fun token =>
            assignable token && (assigned token).isSome &&
              (inLambda token).isNone).map
          fun token => createSymbol token (serverParse documents uri)) := by
  refine ⟨fun h => ?_, fun h => ?_⟩
  · rw [onDocumentSymbol]
    simp [h]
  · rw [onDocumentSymbol]
    simp [h]

theorem document_symbol_modes_witness :
    onDocumentSymbol { debug := true, linting := false } docsEmpty "doc" =
      (serverParse docsEmpty "doc").map createDebugSymbol ∧
    onDocumentSymbol { debug := false, linting := false } docsEmpty "doc" =
      ((serverParse docsEmpty "doc").filter fun token =>
          assignable token && (assigned token).isSome &&
            (inLambda token).isNone).map
        fun token => createSymbol token (serverParse docsEmpty "doc") :=
  ⟨(document_symbol_modes { debug := true, linting := false } docsEmpty
      "doc").1 rfl,
   (document_symbol_modes { debug := false, linting := false } docsEmpty
      "doc").2 rfl⟩

end KxVscode
